import Mathlib

/-!
Shallow embedding of the card-pickup game core (files `cards.rs`, `animator.rs`,
`main.rs`, `state.rs`) and proofs of the specification claims about it.

Modelling conventions:
* `f32` times, lengths and coordinates are modelled as rationals (`ℚ`); the
  constants involved (0.1, 0.5, 1.0, 52.0, 84.0, ...) are exactly the source's
  literals.
* Quaternions are modelled symbolically: the only rotation values the claims
  touch are the card's own (opaque) dealt rotation and the fixed flip target
  `Quat::from_axis_angle(Vec3::X, PI + FRAC_PI_2)`.
* Bevy's asset/handle plumbing (graph handles, node indices, target ids) is
  collapsed: an animation program is its clip content (curves plus scheduled
  events), which is what the claims are about.
* Material handles are opaque naturals.
-/

/-- Rank enumeration from `cards.rs`. -/
inductive Rank where
  | Ace | Two | Three | Four | Five | Six | Seven
  | Eight | Nine | Ten | Jack | Queen | King
deriving DecidableEq, Repr

/-- Numeric value of a rank, from `Rank::as_u8`. -/
def Rank.as_u8 : Rank → Nat
  | .Ace => 1
  | .Two => 2
  | .Three => 3
  | .Four => 4
  | .Five => 5
  | .Six => 6
  | .Seven => 7
  | .Eight => 8
  | .Nine => 9
  | .Ten => 10
  | .Jack => 11
  | .Queen => 12
  | .King => 13

/-- The 13 ranks in the order of `Rank::list`. -/
def Rank.list : List Rank :=
  [.Ace, .Two, .Three, .Four, .Five, .Six, .Seven,
   .Eight, .Nine, .Ten, .Jack, .Queen, .King]

/-- Suit enumeration from `cards.rs`. -/
inductive Suit where
  | Clubs | Diamonds | Hearts | Spades
deriving DecidableEq, Repr

/-- Red-suit predicate from `Suit::is_red`. -/
def Suit.is_red : Suit → Bool
  | .Diamonds => true
  | .Hearts => true
  | _ => false

/-- The 4 suits in the order of `Suit::list`. -/
def Suit.list : List Suit := [.Clubs, .Diamonds, .Hearts, .Spades]

/-- The per-card state record `Card` from `cards.rs`. -/
structure Card where
  rank : Rank
  suit : Suit
  face_up : Bool
  playable : Bool
deriving DecidableEq, Repr

/-- Stacking predicate `Card::can_stack` (defined on the model, unused by play). -/
def Card.can_stack (self other : Card) : Bool :=
  self.rank.as_u8 + 1 == other.rank.as_u8 && self.suit.is_red != other.suit.is_red

/-- Two-dimensional vector over the rationals, standing in for Bevy's `Vec2`. -/
structure Vec2 where
  x : ℚ
  y : ℚ
deriving DecidableEq

/-- Three-dimensional vector over the rationals, standing in for Bevy's `Vec3`. -/
structure Vec3 where
  x : ℚ
  y : ℚ
  z : ℚ
deriving DecidableEq

/-- Copy of a vector with the `y` coordinate replaced, from Bevy's `Vec3::with_y`. -/
def Vec3.with_y (v : Vec3) (y : ℚ) : Vec3 := { v with y := y }

/-- Card width constant `CARD_W` from `cards.rs`. -/
def CARD_W : ℚ := 84

/-- Card height constant `CARD_H` from `cards.rs`. -/
def CARD_H : ℚ := 120

/-- Stack-step thickness constant `CARD_THICKNESS` (`0.1`) from `cards.rs`. -/
def CARD_THICKNESS : ℚ := 1 / 10

/-- Half-extent of a card, `CARD_HALF_SIZE` from `cards.rs`. -/
def CARD_HALF_SIZE : Vec2 := { x := CARD_W / 2, y := CARD_H / 2 }

/-- Half-extent of the board, `BOARD_HALF_SIZE` from `cards.rs`. -/
def BOARD_HALF_SIZE : Vec2 := { x := 354, y := 270 }

/-- Symbolic quaternion: either an opaque concrete value (the card's randomized
dealt rotation) or the fixed pickup flip target
`Quat::from_axis_angle(Vec3::X, PI + FRAC_PI_2)` from `animator.rs`. -/
inductive Quat where
  | raw : ℚ → ℚ → ℚ → ℚ → Quat
  | from_axis_angle_x_pi_plus_frac_pi_2 : Quat
deriving DecidableEq

/-- Transform restricted to the pieces the animation core reads. -/
structure Transform where
  translation : Vec3
  rotation : Quat
deriving DecidableEq

/-- Easing functions used by the two animation programs in `animator.rs`. -/
inductive EaseFunction where
  | SmoothStepOut
  | SmootherStepOut
deriving DecidableEq

/-- Model of `EasingCurve::new(source, target, ease).reparametrize_linear(interval(lo, hi))`:
an eased interpolation from `source` to `target` defined over the time domain
`[lo, hi]`. -/
structure EasedCurve (α : Type) where
  lo : ℚ
  hi : ℚ
  src : α
  target : α
  ease : EaseFunction
deriving DecidableEq

/-- Game flow states from `state.rs`. -/
inductive GameState where
  | Loading
  | Menu
  | Deal
  | Play
  | Win
deriving DecidableEq, Repr

/-- Animation clip content: scheduled `CollectingCard` events (`add_event`),
deferred state-transition actions (`add_event_fn` closing over
`commands.set_state`), and the per-field curves added with
`add_curve_to_target`. -/
structure AnimationClip where
  events : List (ℚ × Card)
  deferredStates : List (ℚ × GameState)
  translationCurve : Option (EasedCurve Vec3)
  rotationCurve : Option (EasedCurve Quat)
deriving DecidableEq

/-- Empty clip, `AnimationClip::default()`. -/
def AnimationClip.default : AnimationClip :=
  { events := [], deferredStates := [], translationCurve := none, rotationCurve := none }

namespace AnimationInfo

/-- Nominal program duration `AnimationInfo::ANIMATION_DURATION` (= 1.0). -/
def ANIMATION_DURATION : ℚ := 1

/-- Clip content built by `AnimationInfo::create` in `animator.rs`: one
`CollectingCard` event at `t = ANIMATION_DURATION`, a translation curve over
`[0, ANIMATION_DURATION]` from the dealt translation to the same point lifted
to `y = 52.0`, and a rotation curve over `[0.5, ANIMATION_DURATION]` from the
dealt rotation to the fixed face-up flip quaternion. The name/target-id/graph
plumbing of the Rust struct carries no claim-relevant state and is collapsed
into the clip. -/
def create (transform : Transform) (card : Card) : AnimationClip :=
  { events := [(ANIMATION_DURATION, card)]
    deferredStates := []
    translationCurve := some
      { lo := 0
        hi := ANIMATION_DURATION
        src := transform.translation
        target := transform.translation.with_y 52
        ease := .SmoothStepOut }
    rotationCurve := some
      { lo := 1 / 2
        hi := ANIMATION_DURATION
        src := transform.rotation
        target := .from_axis_angle_x_pi_plus_frac_pi_2
        ease := .SmoothStepOut } }

end AnimationInfo

/-- Per-card world state read and written by the completion handler: the card
data, its current transform, and its active animation program (the graph/node
handle indirection of `AnimationGraphHandle`/`AnimatorNodeId` collapsed to the
owned clip). -/
structure WorldCard where
  card : Card
  transform : Transform
  program : AnimationClip
deriving DecidableEq

/-- Translation target of the collection program for post-increment counter
value `n`: the `Transform::from_xyz(...)` expression in `collect_card`. -/
def stackSlot (n : Nat) : Vec3 :=
  { x := BOARD_HALF_SIZE.x + CARD_HALF_SIZE.x
    y := (n : ℚ) * CARD_THICKNESS
    z := BOARD_HALF_SIZE.y - CARD_HALF_SIZE.y }

/-- One invocation of the `collect_card` observer body (`animator.rs`) for a
single queried card `w`, a broadcast `CollectingCard` event carrying `event`,
and the current `CardsCollected` value `collected`. Returns the updated card
world state and counter. On an accepted event the counter is incremented
first, then the collection clip is built from the post-increment value, the
win action is appended and the counter reset when the counter reached 52, and
the program is swapped in. On a rejected event nothing changes. -/
def collect_card (event : Card) (w : WorldCard) (collected : Nat) : WorldCard × Nat :=
  if w.card.rank = event.rank ∧ w.card.suit = event.suit ∧
      w.card.playable = false ∧ w.card.face_up = true then
    let collected1 := collected + 1
    let clip : AnimationClip :=
      { AnimationClip.default with
        translationCurve := some
          { lo := 0
            hi := AnimationInfo.ANIMATION_DURATION
            src := w.transform.translation
            target := stackSlot collected1
            ease := .SmootherStepOut } }
    if 52 ≤ collected1 then
      ({ w with program :=
          { clip with deferredStates :=
              [(AnimationInfo.ANIMATION_DURATION + 1 / 10, GameState.Win)] } },
       0)
    else
      ({ w with program := clip }, collected1)
  else
    (w, collected)

/-- Default value of the `CardsCollected` resource (`#[derive(Default)]` on a
`u8` field). -/
def CardsCollected.default : Nat := 0

/-- Fold of `collect_card` over a sequence of handler invocations, each given
by the event card and the queried world card; threads the shared counter. -/
def runCollect : List (Card × WorldCard) → Nat → Nat
  | [], collected => collected
  | (e, w) :: rest, collected => runCollect rest (collect_card e w collected).2

/-- Body of the `pressed_card` observer (`animator.rs`) for the pressed card:
given the card data and the number of times its pickup node has been played,
an eligible card is flipped (`playable := false`, `face_up := true`) and its
pickup animation played once more; otherwise nothing changes. -/
def pressed_card (card : Card) (plays : Nat) : Card × Nat :=
  if card.playable = true ∧ card.face_up = false then
    ({ card with playable := false, face_up := true }, plays + 1)
  else
    (card, plays)

/-- Body of the observer closure returned by `update_material_on` (`main.rs`),
applied to the target card's current material and the closure's captured
replacement material (for `Pointer<Out>` the card's spawn-time back material).
Material handles are opaque naturals. -/
def update_material_on (card : Card) (current new_material : Nat) : Nat :=
  if card.playable = true ∧ card.face_up = false then new_material else current

/-- The freshly built deck of `shuffle_deck` (`cards.rs`) before the shuffle:
suit-major double loop pushing every (rank, suit) combination with both flags
false. -/
def freshDeck : List Card :=
  Suit.list.flatMap fun suit =>
    Rank.list.map fun rank =>
      { rank := rank, suit := suit, face_up := false, playable := false }

/-- Exchange of the elements at positions `i` and `j`, the `swap` primitive of
the Fisher–Yates loop inside `SliceRandom::shuffle`; out-of-range indices
leave the list unchanged. -/
def listSwap (l : List Card) (i j : Nat) : List Card :=
  match l[i]?, l[j]? with
  | some a, some b => (l.set i b).set j a
  | _, _ => l

/-- Fisher–Yates loop of `SliceRandom::shuffle`: for `i` from `len-1` down to
`1`, swap position `i` with a drawn position in `0..=i`. The random source is
modelled as the draw sequence `choices`, reduced mod `i+1` so every draw is in
range, as the RNG guarantees. -/
def fisherYates (choices : Nat → Nat) : Nat → List Card → List Card
  | 0, l => l
  | i + 1, l => fisherYates choices i (listSwap l (i + 1) (choices (i + 1) % (i + 2)))

/-- Model of `shuffle_deck` (`cards.rs`): build the 52-card cross product, then
permute it in place, with the process-wide RNG abstracted into the draw
sequence `choices`. -/
def shuffle_deck (choices : Nat → Nat) : List Card :=
  fisherYates choices (freshDeck.length - 1) freshDeck

/-- The 52 (rank, suit) pairs, suit-major, the full 13×4 cross product. -/
def fullCrossProduct : List (Rank × Suit) :=
  Suit.list.flatMap fun suit => Rank.list.map fun rank => (rank, suit)

/-!
Shared helper lemmas and sample values, followed by one theorem per claim.
-/

/-- Replacing the element at an in-range position changes the element counts of
a list by removing one occurrence of the old element and adding one of the new
element. -/
theorem count_set (l : List Card) (n : Nat) (c x : Card) (h : n < l.length) :
    (l.set n c).count x + (if l[n] = x then 1 else 0)
      = l.count x + (if c = x then 1 else 0) := by
  induction l generalizing n with
  | nil => simp at h
  | cons hd tl ih =>
    cases n with
    | zero =>
      simp [List.count_cons]
      rcases Decidable.em (c = x) with hc | hc <;> rcases Decidable.em (hd = x) with hh | hh <;>
        simp [hc, hh]
    | succ n =>
      have h' : n < tl.length := by simpa using h
      have e := ih n h'
      simp [List.count_cons]
      rcases Decidable.em (hd = x) with hh | hh <;> simp [hh] <;> omega

/-- Swapping two positions permutes the list. -/
theorem listSwap_perm (l : List Card) (i j : Nat) : List.Perm (listSwap l i j) l := by
  cases hi : l[i]? with
  | none => simp [listSwap, hi]
  | some a =>
    cases hj : l[j]? with
    | none => simp [listSwap, hi, hj]
    | some b =>
      have hil : i < l.length := (List.getElem?_eq_some.mp hi).1
      have hjl : j < l.length := (List.getElem?_eq_some.mp hj).1
      have hia : l[i] = a := by
        rw [List.getElem?_eq_getElem hil] at hi
        exact Option.some_injective _ hi
      have hjb : l[j] = b := by
        rw [List.getElem?_eq_getElem hjl] at hj
        exact Option.some_injective _ hj
      have hjl2 : j < (l.set i b).length := by simpa using hjl
      have hset_j : (l.set i b)[j] = b := by
        rw [List.getElem_set hjl2]
        split
        · rfl
        · exact hjb
      have hred : listSwap l i j = (l.set i b).set j a := by
        simp [listSwap, hi, hj]
      rw [hred, List.perm_iff_count]
      intro x
      have e1 := count_set (l.set i b) j a x hjl2
      have e2 := count_set l i b x hil
      rw [hset_j] at e1
      rw [hia] at e2
      generalize (if b = x then 1 else 0) = q at e1 e2
      generalize (if a = x then 1 else 0) = p at e1 e2
      omega

/-- The Fisher–Yates loop permutes its input, whatever the draw sequence. -/
theorem fisherYates_perm (choices : Nat → Nat) :
    ∀ (n : Nat) (l : List Card), List.Perm (fisherYates choices n l) l := by
  intro n
  induction n with
  | zero => intro l; exact List.Perm.refl l
  | succ i ih =>
    intro l
    exact (ih _).trans (listSwap_perm l (i + 1) (choices (i + 1) % (i + 2)))

/-- One accepted or rejected `collect_card` invocation keeps the counter at or
below 51 when it was at or below 51. -/
theorem collect_card_counter_bound (e : Card) (w : WorldCard) (collected : Nat)
    (h : collected ≤ 51) : (collect_card e w collected).2 ≤ 51 := by
  rcases Decidable.em (w.card.rank = e.rank ∧ w.card.suit = e.suit ∧
      w.card.playable = false ∧ w.card.face_up = true) with ha | ha
  · rcases Decidable.em (52 ≤ collected + 1) with hb | hb <;>
      simp [collect_card, ha, hb] <;> omega
  · simp [collect_card, ha]
    omega

/-- Sample dealt-and-spawned eligible card used by concrete witnesses. -/
def sampleDealtCard : Card :=
  { rank := Rank.King, suit := Suit.Spades, face_up := false, playable := true }

/-- Sample post-pickup card (flags as left by `pressed_card`). -/
def samplePickedCard : Card :=
  { rank := Rank.King, suit := Suit.Spades, face_up := true, playable := false }

/-- Sample transform with an opaque dealt rotation. -/
def sampleTransform : Transform :=
  { translation := { x := 1, y := 2, z := 3 }, rotation := Quat.raw 0 0 0 1 }

/-- Sample world card in the post-pickup configuration. -/
def sampleWorld : WorldCard :=
  { card := samplePickedCard, transform := sampleTransform,
    program := AnimationClip.default }

/-- C1: an accepted pickup-completion event increments the shared counter by
exactly one before the collection program is built: the installed program's
translation curve runs over the nominal duration from the card's current
translation to the stack slot for the post-increment value `collected + 1`,
whose height is `(collected + 1) × CARD_THICKNESS` and whose x and z
coordinates are one fixed stack anchor, the same for every collection. -/
theorem collect_card_builds_post_increment_stack_program
    (e : Card) (w : WorldCard) (collected : Nat)
    (h : w.card.rank = e.rank ∧ w.card.suit = e.suit ∧
         w.card.playable = false ∧ w.card.face_up = true) :
    (collect_card e w collected).1.program.translationCurve
        = some { lo := 0, hi := AnimationInfo.ANIMATION_DURATION,
                 src := w.transform.translation,
                 target := stackSlot (collected + 1),
                 ease := EaseFunction.SmootherStepOut } ∧
    (stackSlot (collected + 1)).y = ((collected + 1 : Nat) : ℚ) * CARD_THICKNESS ∧
    ∀ n m : Nat, (stackSlot n).x = (stackSlot m).x ∧ (stackSlot n).z = (stackSlot m).z := by
  refine ⟨?_, rfl, fun n m => ⟨rfl, rfl⟩⟩
  rcases Decidable.em (52 ≤ collected + 1) with h52 | h52 <;>
    simp [collect_card, h, h52]

/-- C1 witness: a matching completion event for the sample picked-up card at
counter value 4 installs a translation curve targeting stack slot 5. -/
theorem collect_card_builds_post_increment_stack_program_witness :
    (collect_card samplePickedCard sampleWorld 4).1.program.translationCurve
        = some { lo := 0, hi := AnimationInfo.ANIMATION_DURATION,
                 src := sampleTransform.translation,
                 target := stackSlot 5,
                 ease := EaseFunction.SmootherStepOut } :=
  (collect_card_builds_post_increment_stack_program samplePickedCard sampleWorld 4
    ⟨rfl, rfl, rfl, rfl⟩).1

/-- C2: when an accepted completion event brings the post-increment counter to
exactly 52, the newly built collection program carries one deferred Win
transition at the nominal duration plus 0.1 — strictly after the duration —
and the counter is reset to 0 in the same step; when the post-increment value
is below 52 the program carries no deferred transition and the counter keeps
the incremented, non-reset value. -/
theorem collect_card_win_policy
    (e : Card) (w : WorldCard) (collected : Nat)
    (h : w.card.rank = e.rank ∧ w.card.suit = e.suit ∧
         w.card.playable = false ∧ w.card.face_up = true) :
    (collected + 1 = 52 →
       (collect_card e w collected).1.program.deferredStates
           = [(AnimationInfo.ANIMATION_DURATION + 1 / 10, GameState.Win)] ∧
       AnimationInfo.ANIMATION_DURATION < AnimationInfo.ANIMATION_DURATION + 1 / 10 ∧
       (collect_card e w collected).2 = 0) ∧
    (collected + 1 < 52 →
       (collect_card e w collected).1.program.deferredStates = [] ∧
       (collect_card e w collected).2 = collected + 1 ∧
       (collect_card e w collected).2 ≠ 0) := by
  constructor
  · intro h52
    have hle : 52 ≤ collected + 1 := le_of_eq h52.symm
    refine ⟨?_, ?_, ?_⟩
    · simp [collect_card, h, hle]
    · norm_num [AnimationInfo.ANIMATION_DURATION]
    · simp [collect_card, h, hle]
  · intro h52
    have hlt : ¬ 52 ≤ collected + 1 := by omega
    refine ⟨?_, ?_, ?_⟩ <;> simp [collect_card, h, hlt, AnimationClip.default]

/-- C2 witness: the 52nd collection (counter 51 before the event) installs the
deferred Win transition at 1.1 and resets the counter, while an earlier
collection (counter 4) installs none and keeps the incremented value. -/
theorem collect_card_win_policy_witness :
    ((collect_card samplePickedCard sampleWorld 51).1.program.deferredStates
        = [(AnimationInfo.ANIMATION_DURATION + 1 / 10, GameState.Win)] ∧
     (collect_card samplePickedCard sampleWorld 51).2 = 0) ∧
    ((collect_card samplePickedCard sampleWorld 4).1.program.deferredStates = [] ∧
     (collect_card samplePickedCard sampleWorld 4).2 = 5) := by
  have h52 := (collect_card_win_policy samplePickedCard sampleWorld 51
    ⟨rfl, rfl, rfl, rfl⟩).1 (by norm_num)
  have h5 := (collect_card_win_policy samplePickedCard sampleWorld 4
    ⟨rfl, rfl, rfl, rfl⟩).2 (by norm_num)
  exact ⟨⟨h52.1, h52.2.2⟩, ⟨h5.1, h5.2.1⟩⟩

/-- C3: a Press on an eligible card (`playable` and not `face_up`) clears
`playable`, sets `face_up`, and plays the pickup program exactly once more. -/
theorem pressed_card_flips_eligible (card : Card) (plays : Nat)
    (h : card.playable = true ∧ card.face_up = false) :
    pressed_card card plays
      = ({ card with playable := false, face_up := true }, plays + 1) := by
  simp [pressed_card, h]

/-- C3 witness: pressing the sample eligible card flips it and starts one
pickup playback. -/
theorem pressed_card_flips_eligible_witness :
    pressed_card sampleDealtCard 0 = (samplePickedCard, 1) :=
  pressed_card_flips_eligible sampleDealtCard 0 ⟨rfl, rfl⟩

/-- C4: a Press on an ineligible card (not `playable` or already `face_up`)
changes nothing: same card fields, no extra playback, no error. -/
theorem pressed_card_ignores_ineligible (card : Card) (plays : Nat)
    (h : ¬(card.playable = true ∧ card.face_up = false)) :
    pressed_card card plays = (card, plays) := by
  simp [pressed_card, h]

/-- C4 witness: pressing the sample already-picked card is a no-op. -/
theorem pressed_card_ignores_ineligible_witness :
    pressed_card samplePickedCard 1 = (samplePickedCard, 1) :=
  pressed_card_ignores_ineligible samplePickedCard 1 (by decide)

/-- C6: a completion event whose card's rank or suit differs from the queried
card's, or whose queried card is still `playable` or not `face_up`, is
silently ignored: the world card, its program, and the counter are returned
unchanged. -/
theorem collect_card_ignores_mismatch (e : Card) (w : WorldCard) (collected : Nat)
    (h : ¬(w.card.rank = e.rank ∧ w.card.suit = e.suit ∧
           w.card.playable = false ∧ w.card.face_up = true)) :
    collect_card e w collected = (w, collected) := by
  simp [collect_card, h]

/-- C6 witness: a broadcast event for a different card (Ace of Clubs) leaves
the sample world card and the counter untouched. -/
theorem collect_card_ignores_mismatch_witness :
    collect_card { rank := Rank.Ace, suit := Suit.Clubs, face_up := true, playable := false }
        sampleWorld 7 = (sampleWorld, 7) :=
  collect_card_ignores_mismatch _ sampleWorld 7 (by decide)

/-- C7: the shared collected counter starts at 0 and, under any sequence of
`collect_card` invocations (the only path that mutates it), never leaves the
range [0, 52]: every reachable value is at most 52 (in fact at most 51 at step
boundaries), and as a natural number it is never below 0. -/
theorem cards_collected_in_range (evs : List (Card × WorldCard)) :
    CardsCollected.default = 0 ∧ runCollect evs CardsCollected.default ≤ 52 := by
  have aux : ∀ (l : List (Card × WorldCard)) (c : Nat), c ≤ 51 → runCollect l c ≤ 51 := by
    intro l
    induction l with
    | nil => intro c hc; simpa [runCollect] using hc
    | cons p rest ih =>
      intro c hc
      obtain ⟨e, w⟩ := p
      simp only [runCollect]
      exact ih _ (collect_card_counter_bound e w c hc)
  exact ⟨rfl, le_trans (aux evs 0 (by omega)) (by omega)⟩

/-- C8: the pickup program has nominal duration 1, emits exactly one
`CollectingCard` event, carrying the card itself, at `t = ANIMATION_DURATION`,
defines its translation curve over the full window `[0, ANIMATION_DURATION]`,
and defines its rotation curve only over the trailing half
`[ANIMATION_DURATION / 2, ANIMATION_DURATION]`. -/
theorem pickup_program_curve_domains_and_event (t : Transform) (c : Card) :
    AnimationInfo.ANIMATION_DURATION = 1 ∧
    (AnimationInfo.create t c).events = [(AnimationInfo.ANIMATION_DURATION, c)] ∧
    Option.map (fun cu => (cu.lo, cu.hi)) (AnimationInfo.create t c).translationCurve
      = some (0, AnimationInfo.ANIMATION_DURATION) ∧
    Option.map (fun cu => (cu.lo, cu.hi)) (AnimationInfo.create t c).rotationCurve
      = some (AnimationInfo.ANIMATION_DURATION / 2, AnimationInfo.ANIMATION_DURATION) := by
  refine ⟨rfl, rfl, rfl, ?_⟩
  simp only [AnimationInfo.create, Option.map_some]
  norm_num [AnimationInfo.ANIMATION_DURATION]

/-- C10: the pickup translation curve ends at the dealt translation with only
the y coordinate replaced by the constant 52: the endpoint keeps the dealt x
and z and lifts the card to the same absolute height wherever it was dealt. -/
theorem pickup_translation_ends_straight_up (t : Transform) (c : Card) :
    Option.map (fun cu => cu.target) (AnimationInfo.create t c).translationCurve
        = some (t.translation.with_y 52) ∧
    (t.translation.with_y 52).x = t.translation.x ∧
    (t.translation.with_y 52).y = 52 ∧
    (t.translation.with_y 52).z = t.translation.z :=
  ⟨rfl, rfl, rfl, rfl⟩

/-- C9 counterexample: the Leave observer does not unconditionally restore the
back material. For an already picked-up card (not `playable`, `face_up`) whose
surface currently holds material 1 while its back material is 0, the observer
leaves material 1 in place instead of restoring 0. -/
theorem update_material_on_leave_not_unconditional :
    update_material_on
        { rank := Rank.Ace, suit := Suit.Spades, face_up := true, playable := false }
        1 0 = 1 ∧ (1 : Nat) ≠ 0 := by
  constructor
  · rfl
  · decide

/-- C9 as amended: a Leave notification restores the card's back material
exactly when the card is still eligible (`playable` and not `face_up`); on an
ineligible card the notification is ignored and the current material is kept. -/
theorem update_material_on_restores_iff_eligible (card : Card) (current back : Nat)
    (h : current ≠ back) :
    (update_material_on card current back = back
        ↔ card.playable = true ∧ card.face_up = false) ∧
    (¬(card.playable = true ∧ card.face_up = false) →
        update_material_on card current back = current) := by
  rcases Decidable.em (card.playable = true ∧ card.face_up = false) with hc | hc
  · constructor
    · simp [update_material_on, hc]
    · intro hn
      exact absurd hc hn
  · constructor
    · simp only [update_material_on, if_neg hc]
      constructor
      · intro heq
        exact absurd heq h
      · intro hcc
        exact absurd hcc hc
    · intro _
      simp [update_material_on, hc]

/-- C9 witness: for a still-eligible card with current material 1 and back
material 0, the Leave observer restores material 0. -/
theorem update_material_on_restores_iff_eligible_witness :
    update_material_on sampleDealtCard 1 0 = 0 :=
  (update_material_on_restores_iff_eligible sampleDealtCard 1 0 (by decide)).1.mpr
    ⟨rfl, rfl⟩

/-- C5: for every draw sequence, `shuffle_deck` returns exactly 52 cards, the
(rank, suit) pairs are pairwise distinct, their multiset is the full 13×4
cross product (stated as a permutation of its enumeration), and every returned
card has `face_up = false` and `playable = false`; the function is total, so
there is no failure mode. -/
theorem shuffle_deck_full_distinct_facedown (choices : Nat → Nat) :
    (shuffle_deck choices).length = 52 ∧
    (List.map (fun c => (c.rank, c.suit)) (shuffle_deck choices)).Nodup ∧
    List.Perm (List.map (fun c => (c.rank, c.suit)) (shuffle_deck choices))
      fullCrossProduct ∧
    ∀ c ∈ shuffle_deck choices, c.face_up = false ∧ c.playable = false := by
  have hp : List.Perm (shuffle_deck choices) freshDeck :=
    fisherYates_perm choices (freshDeck.length - 1) freshDeck
  have hmap : List.Perm (List.map (fun c => (c.rank, c.suit)) (shuffle_deck choices))
      (List.map (fun c => (c.rank, c.suit)) freshDeck) := hp.map _
  have heq : List.map (fun c => (c.rank, c.suit)) freshDeck = fullCrossProduct := by decide
  refine ⟨?_, ?_, ?_, ?_⟩
  · rw [hp.length_eq]
    decide
  · exact hmap.nodup_iff.mpr (by decide)
  · rw [heq] at hmap
    exact hmap
  · intro c hc
    have hm : c ∈ freshDeck := hp.mem_iff.mp hc
    have hall : ∀ d ∈ freshDeck, d.face_up = false ∧ d.playable = false := by decide
    exact hall c hm
